import Mathlib

set_option maxRecDepth 4096

/-
Verification of the Anomaly Attribution Engine frontend core.

The definitions below are a shallow embedding of the TypeScript source in
src/frontend/src/components/MapContainer.tsx (which contains both the React
map component and the Vue terminal application script).  Machine floats are
modelled as rationals; JavaScript arrays as Lean lists; the mutable refs of
the component as fields of explicit state records.
-/

namespace AAE

/-! ### Stream ingestor

Embedding of the WebSocket message handler of the terminal application
(MapContainer.tsx, `ws.onmessage`, lines 1210-1226):

    try {
        const newTick = JSON.parse(event.data)
        newTick._uid = `tick-${tickCounter++}`
        chartData.value.push(newTick)
        if (chartData.value.length > 200) chartData.value.shift()
        if (newTick.hasAnomaly && newTick.anomalyDetails) {
            anomalyData.value.push(newTick)
            if (anomalyData.value.length > 100) anomalyData.value.shift()
        }
    } catch (e) { console.error("WS_PARSE_ERR", e) }

A raw record is modelled as `Option TickData`: `none` is a record on which
`JSON.parse` throws (the catch block logs and leaves all state untouched),
`some d` is a successfully parsed record.  Only the fields the handler
inspects are carried: `hasAnomaly` is the boolean flag, `anomalyDetails` is
the truthiness of the optional details payload.
-/

structure TickData where
  hasAnomaly : Bool
  anomalyDetails : Bool
  deriving DecidableEq, Repr

/-- A tick after ingestion: the `_uid` counter value stamped on the record
(`tick-${tickCounter++}`) together with the parsed payload. -/
structure Tick where
  uid : Nat
  data : TickData
  deriving DecidableEq, Repr

/-- Capacity of the timeline window (`chartData`): the literal 200. -/
def timelineCap : Nat := 200

/-- Capacity of the anomaly substream (`anomalyData`): the literal 100. -/
def substreamCap : Nat := 100

/-- `l.push(t); if (l.length > cap) l.shift()` - append, then evict the
oldest entry when the capacity is exceeded. -/
def pushBounded (cap : Nat) (l : List Tick) (t : Tick) : List Tick :=
  let l2 := l ++ [t]
  if cap < l2.length then l2.drop 1 else l2

/-- The mutable state of the ingestor: `tickCounter`, `chartData.value`
(timeline window) and `anomalyData.value` (anomaly substream). -/
structure EngineState where
  tickCounter : Nat
  chartData : List Tick
  anomalyData : List Tick
  deriving DecidableEq, Repr

/-- State at stream-subscription time: counter 0, both sequences empty. -/
def initState : EngineState := ⟨0, [], []⟩

/-- One `ws.onmessage` invocation.  A record that fails to parse (`none`)
leaves the state unchanged; a parsed record is stamped with the current
counter, appended to the window, and, when both `hasAnomaly` and
`anomalyDetails` are truthy, also appended to the substream. -/
def ingest (r : Option TickData) (s : EngineState) : EngineState :=
  match r with
  | none => s
  | some d =>
    let t : Tick := ⟨s.tickCounter, d⟩
    { tickCounter := s.tickCounter + 1
      chartData := pushBounded timelineCap s.chartData t
      anomalyData :=
        if d.hasAnomaly && d.anomalyDetails then
          pushBounded substreamCap s.anomalyData t
        else
          s.anomalyData }

/-- The state after a sequence of `ws.onmessage` invocations starting from
the subscription-time state. -/
def run (rs : List (Option TickData)) : EngineState :=
  rs.foldl (fun s r => ingest r s) initState

/-! ### Helper lemmas: capacity bounds -/

lemma pushBounded_length_le {cap : Nat} (l : List Tick) (t : Tick)
    (h : l.length ≤ cap) : (pushBounded cap l t).length ≤ cap := by
  simp only [pushBounded]
  split
  · simp only [List.length_drop, List.length_append, List.length_singleton]
    omega
  · rename_i hc
    simp only [List.length_append, List.length_singleton] at *
    omega

/-- The two capacity bounds, as a state invariant preserved by `ingest`. -/
def BoundsInv (s : EngineState) : Prop :=
  s.chartData.length ≤ timelineCap ∧ s.anomalyData.length ≤ substreamCap

lemma boundsInv_init : BoundsInv initState := by
  constructor <;> simp [initState, timelineCap, substreamCap]

lemma boundsInv_ingest (r : Option TickData) (s : EngineState)
    (h : BoundsInv s) : BoundsInv (ingest r s) := by
  obtain ⟨h1, h2⟩ := h
  match r with
  | none => exact ⟨h1, h2⟩
  | some d =>
    refine ⟨pushBounded_length_le _ _ h1, ?_⟩
    simp only [ingest]
    by_cases hb : (d.hasAnomaly && d.anomalyDetails) = true
    · simp only [hb, if_true]
      exact pushBounded_length_le _ _ h2
    · simp only [hb, if_false]
      exact h2

lemma boundsInv_foldl (rs : List (Option TickData)) (s : EngineState)
    (h : BoundsInv s) : BoundsInv (rs.foldl (fun s r => ingest r s) s) := by
  induction rs generalizing s with
  | nil => exact h
  | cons r rs ih => exact ih _ (boundsInv_ingest r s h)

/-- Claim C1: for every sequence of ingest calls (WebSocket messages,
parsed or not), after each call the timeline window holds at most 200
ticks and the anomaly substream holds at most 100 ticks. -/
theorem window_bounds (rs : List (Option TickData)) :
    (run rs).chartData.length ≤ timelineCap ∧
      (run rs).anomalyData.length ≤ substreamCap :=
  boundsInv_foldl rs initState boundsInv_init

/-! ### FIFO eviction -/

/-- The ticks produced by ingesting the parsed payloads `ds` in order when
the counter starts at `c`: payload `i` is stamped with uid `c + i`. -/
def mkTicks (ds : List TickData) (c : Nat) : List Tick :=
  match ds with
  | [] => []
  | d :: ds => ⟨c, d⟩ :: mkTicks ds (c + 1)

lemma mkTicks_length (ds : List TickData) (c : Nat) :
    (mkTicks ds c).length = ds.length := by
  induction ds generalizing c with
  | nil => rfl
  | cons d ds ih => simp [mkTicks, ih]

/-- Folding `pushBounded` over a list of ticks keeps exactly the last
`cap` elements of the concatenation (FIFO eviction of the oldest). -/
lemma foldl_pushBounded (cap : Nat) (ts : List Tick) :
    ∀ w : List Tick, w.length ≤ cap →
      ts.foldl (pushBounded cap) w =
        (w ++ ts).drop (w.length + ts.length - cap) := by
  induction ts with
  | nil =>
    intro w hw
    simp only [List.foldl_nil, List.append_nil, List.length_nil]
    rw [Nat.sub_eq_zero_of_le (by omega), List.drop_zero]
  | cons t ts ih =>
    intro w hw
    simp only [List.foldl_cons]
    by_cases hc : cap < (w ++ [t]).length
    · have hNe : w.length = cap := by
        simp only [List.length_append, List.length_singleton] at hc
        omega
      have hdef : pushBounded cap w t = (w ++ [t]).drop 1 := by
        simp only [pushBounded, if_pos hc]
      have hlen : ((w ++ [t]).drop 1).length = cap := by
        simp only [List.length_drop, List.length_append, List.length_singleton]
        omega
      rw [hdef, ih _ hlen.le, hlen]
      have hsplit : (w ++ [t]).drop 1 ++ ts = (w ++ t :: ts).drop 1 := by
        rw [← @List.drop_append_of_le_length _ (w ++ [t]) ts 1
              (by simp only [List.length_append, List.length_singleton]; omega)]
        congr 1
        rw [List.append_assoc]
        rfl
      rw [hsplit, List.drop_drop]
      congr 1
      simp only [List.length_cons]
      omega
    · have hdef : pushBounded cap w t = w ++ [t] := by
        simp only [pushBounded, if_neg hc]
      have hlen : (w ++ [t]).length ≤ cap := by
        simp only [List.length_append, List.length_singleton] at hc ⊢
        omega
      rw [hdef, ih _ hlen]
      have hsplit : (w ++ [t]) ++ ts = w ++ t :: ts := by
        rw [List.append_assoc]
        rfl
      rw [hsplit]
      congr 1
      simp only [List.length_append, List.length_singleton, List.length_cons,
        List.length_nil]
      omega

/-- The timeline window evolves exactly as `pushBounded` over the stamped
ticks: the anomaly fork never touches `chartData`. -/
lemma foldl_ingest_chartData (ds : List TickData) :
    ∀ s : EngineState,
      ((ds.map some).foldl (fun s r => ingest r s) s).chartData =
        (mkTicks ds s.tickCounter).foldl (pushBounded timelineCap) s.chartData := by
  induction ds with
  | nil => intro s; rfl
  | cons d ds ih =>
    intro s
    simp only [List.map_cons, List.foldl_cons, mkTicks]
    rw [ih]
    rfl

/-- Claim C2 (statement as written): starting from an empty window of
capacity 200, ingesting 201 ticks leaves exactly ticks 2..201 in the
window, in arrival order - the oldest tick, and only it, is evicted. -/
theorem fifo_eviction (ds : List TickData) (h : ds.length = timelineCap + 1) :
    (run (ds.map some)).chartData = (mkTicks ds 0).drop 1 := by
  unfold run
  have h0 : (initState.chartData).length ≤ timelineCap := by
    simp [initState, timelineCap]
  rw [foldl_ingest_chartData ds initState, foldl_pushBounded timelineCap _ _ h0]
  show (([] : List Tick) ++ mkTicks ds 0).drop
      (([] : List Tick).length + (mkTicks ds 0).length - timelineCap) =
    (mkTicks ds 0).drop 1
  rw [List.nil_append]
  congr 1
  simp only [List.length_nil, Nat.zero_add, mkTicks_length, h]
  omega

/-- Witness for C2 at a concrete input: 201 identical payloads. -/
theorem fifo_eviction_witness :
    (run ((List.replicate 201 (⟨false, false⟩ : TickData)).map some)).chartData =
      (mkTicks (List.replicate 201 (⟨false, false⟩ : TickData)) 0).drop 1 :=
  fifo_eviction (List.replicate 201 ⟨false, false⟩)
    (by rw [List.length_replicate, timelineCap])

/-! ### Arrival order in the anomaly substream

The `_uid` counter stamped on each tick records arrival order: tick `a`
arrived before tick `b` iff `a.uid < b.uid`.  The invariant below says the
substream lists ticks in strictly increasing arrival order and only ticks
that have already arrived. -/

def UidInv (s : EngineState) : Prop :=
  (∀ t ∈ s.anomalyData, t.uid < s.tickCounter) ∧
    s.anomalyData.Pairwise (fun a b => a.uid < b.uid)

lemma uidInv_init : UidInv initState := by
  constructor
  · intro t ht
    simp [initState] at ht
  · simp [initState]

lemma pushBounded_subset {cap : Nat} (l : List Tick) (t : Tick) :
    ∀ x ∈ pushBounded cap l t, x ∈ l ++ [t] := by
  intro x hx
  simp only [pushBounded] at hx
  split at hx
  · exact (List.drop_sublist 1 (l ++ [t])).subset hx
  · exact hx

lemma pushBounded_pairwise {cap : Nat} (l : List Tick) (t : Tick)
    (hl : l.Pairwise (fun a b => a.uid < b.uid))
    (ht : ∀ x ∈ l, x.uid < t.uid) :
    (pushBounded cap l t).Pairwise (fun a b => a.uid < b.uid) := by
  have happ : (l ++ [t]).Pairwise (fun a b => a.uid < b.uid) := by
    rw [List.pairwise_append]
    refine ⟨hl, List.pairwise_singleton _ _, ?_⟩
    intro a ha b hb
    rw [List.mem_singleton] at hb
    subst hb
    exact ht a ha
  simp only [pushBounded]
  split
  · exact happ.sublist (List.drop_sublist 1 (l ++ [t]))
  · exact happ

lemma uidInv_ingest (r : Option TickData) (s : EngineState)
    (h : UidInv s) : UidInv (ingest r s) := by
  obtain ⟨h1, h2⟩ := h
  match r with
  | none => exact ⟨h1, h2⟩
  | some d =>
    simp only [ingest, UidInv]
    by_cases hb : (d.hasAnomaly && d.anomalyDetails) = true
    · simp only [hb, if_true]
      constructor
      · intro t ht
        rcases List.mem_append.mp (pushBounded_subset _ _ t ht) with hm | hm
        · exact Nat.lt_succ_of_lt (h1 t hm)
        · rw [List.mem_singleton] at hm
          subst hm
          exact Nat.lt_succ_self _
      · exact pushBounded_pairwise _ _ h2 h1
    · simp only [hb, if_false]
      exact ⟨fun t ht => Nat.lt_succ_of_lt (h1 t ht), h2⟩

lemma uidInv_foldl (rs : List (Option TickData)) (s : EngineState)
    (h : UidInv s) : UidInv (rs.foldl (fun s r => ingest r s) s) := by
  induction rs generalizing s with
  | nil => exact h
  | cons r rs ih => exact ih _ (uidInv_ingest r s h)

lemma uidInv_run (rs : List (Option TickData)) : UidInv (run rs) :=
  uidInv_foldl rs initState uidInv_init

/-- Claim C3: after any sequence of ingests (with independent FIFO
evictions of both sequences), any two positions `i < j` of the anomaly
substream hold ticks whose arrival order satisfies
`arrival(i) < arrival(j)`: the substream is an order-preserving
subsequence of the arrival order. -/
theorem substream_order_preserving (rs : List (Option TickData))
    (i j : Nat) (a b : Tick) (hij : i < j)
    (ha : (run rs).anomalyData[i]? = some a)
    (hb : (run rs).anomalyData[j]? = some b) : a.uid < b.uid := by
  obtain ⟨-, hpw⟩ := uidInv_run rs
  rw [List.getElem?_eq_some] at ha hb
  obtain ⟨hi, ha⟩ := ha
  obtain ⟨hj, hb⟩ := hb
  subst ha
  subst hb
  exact List.pairwise_iff_getElem.mp hpw i j hi hj hij

/-- Witness for C3: two anomalous ticks land at substream positions 0 and
1 with increasing arrival ids. -/
theorem substream_order_preserving_witness :
    (⟨0, ⟨true, true⟩⟩ : Tick).uid < (⟨1, ⟨true, true⟩⟩ : Tick).uid :=
  substream_order_preserving
    [some ⟨true, true⟩, some ⟨true, true⟩] 0 1 ⟨0, ⟨true, true⟩⟩
    ⟨1, ⟨true, true⟩⟩ (by decide) (by decide) (by decide)

/-! ### Membership in the anomaly substream -/

/-- Claim C4 counterexample: the record `{hasAnomaly: true}` without a
truthy `anomalyDetails` is successfully ingested (it lands in the
timeline window), has the anomaly flag set, and yet is NOT appended to
the anomaly substream: membership is not determined by the anomaly flag
alone. -/
theorem anomaly_flag_alone_cex :
    (run [some ⟨true, false⟩]).chartData = [⟨0, ⟨true, false⟩⟩] ∧
      (⟨0, (⟨true, false⟩ : TickData)⟩ : Tick).data.hasAnomaly = true ∧
      (run [some ⟨true, false⟩]).anomalyData = [] := by
  decide

/-- Claim C4 as amended: the freshly stamped tick is appended to the
anomaly substream iff BOTH `hasAnomaly` and `anomalyDetails` are truthy
(the code guard is `newTick.hasAnomaly && newTick.anomalyDetails`). -/
theorem anomaly_membership (d : TickData) (s : EngineState)
    (hs : ∀ t ∈ s.anomalyData, t.uid < s.tickCounter) :
    (⟨s.tickCounter, d⟩ : Tick) ∈ (ingest (some d) s).anomalyData ↔
      (d.hasAnomaly && d.anomalyDetails) = true := by
  simp only [ingest]
  by_cases hb : (d.hasAnomaly && d.anomalyDetails) = true
  · simp only [hb, if_true, iff_true]
    simp only [pushBounded]
    split
    · rename_i hlen
      have h1 : 1 ≤ s.anomalyData.length := by
        simp only [List.length_append, List.length_singleton, substreamCap] at hlen
        omega
      rw [List.drop_append_of_le_length h1]
      exact List.mem_append_right _ (List.mem_singleton_self _)
    · exact List.mem_append_right _ (List.mem_singleton_self _)
  · have hb' : (d.hasAnomaly && d.anomalyDetails) = false := by
      cases h : (d.hasAnomaly && d.anomalyDetails) with
      | true => exact absurd h hb
      | false => rfl
    rw [hb', if_neg Bool.false_ne_true]
    refine iff_of_false ?_ Bool.false_ne_true
    intro hmem
    exact absurd (hs _ hmem) (Nat.lt_irrefl _)

/-- Witness for C4 (amended): a tick with both fields truthy is appended
to the substream of the empty engine. -/
theorem anomaly_membership_witness :
    (⟨0, ⟨true, true⟩⟩ : Tick) ∈
      (ingest (some ⟨true, true⟩) initState).anomalyData :=
  (anomaly_membership ⟨true, true⟩ initState
    (by intro t ht; simp [initState] at ht)).mpr rfl

/-! ### Parse errors -/

/-- Claim C9: a record that cannot be parsed as a tick is dropped without
any state change (the catch block swallows the exception, so nothing
escapes to the host), and the remaining stream is processed exactly as if
the bad record had never arrived. -/
theorem parse_error_atomic (s : EngineState)
    (rs1 rs2 : List (Option TickData)) :
    ingest none s = s ∧ run (rs1 ++ none :: rs2) = run (rs1 ++ rs2) := by
  refine ⟨rfl, ?_⟩
  unfold run
  rw [List.foldl_append, List.foldl_append, List.foldl_cons]
  rfl

/-! ### Virtual clock

Embedding of the animation clock of the map component
(MapContainer.tsx).  The mutable refs `currentTimeRef`, `timeRangeRef`
and the `animationSpeed` state form the clock state; floats are modelled
as rationals.

The `animate` callback (lines 238-277) is one clock step:

    if (timeRangeRef.current.max === 0) { ...reschedule...; return; }
    let next = currentTimeRef.current + ANIMATION_SPEED * animationSpeed;
    if (next > timeRangeRef.current.max) next = 0;
    currentTimeRef.current = next;

`handleProgressClick` (lines 453-482) is the seek operation:

    const pct = (e.clientX - rect.left) / rect.width;
    currentTimeRef.current = pct * timeRangeRef.current.max;
    ...
    updateDashboardDOM(currentTimeRef.current);

After a seek the dashboard metrics read observes exactly the stored
`currentTimeRef.current`. -/

/-- ANIMATION_SPEED = 0.016 (line 57). -/
def animationSpeedBase : ℚ := 16 / 1000

/-- Clock state: `currentTimeRef.current`, `timeRangeRef.current.min`,
`timeRangeRef.current.max` and the `animationSpeed` multiplier. -/
structure ClockState where
  currentTime : ℚ
  timeRangeMin : ℚ
  timeRangeMax : ℚ
  speed : ℚ
  deriving DecidableEq, Repr

/-- One `animate` step (lines 238-277). -/
def tick (s : ClockState) : ClockState :=
  if s.timeRangeMax = 0 then s
  else
    let next := s.currentTime + animationSpeedBase * s.speed
    { s with currentTime := if s.timeRangeMax < next then 0 else next }

/-- `handleProgressClick` (lines 453-482): seek to the clicked fraction
of the progress bar.  Note: no clamping is performed. -/
def handleProgressClick (clientX rectLeft rectWidth : ℚ)
    (s : ClockState) : ClockState :=
  let pct := (clientX - rectLeft) / rectWidth
  { s with currentTime := pct * s.timeRangeMax }

/-- Clamping as the spec's words describe `seek(p)`:
`currentTime := clamp(p, min, max)`. -/
def specClamp (p lo hi : ℚ) : ℚ := min (max p lo) hi

section RatCompute

attribute [local semireducible] Rat.add Rat.sub Rat.mul Rat.inv

/-- Claim C5 counterexample: with extent `[5, 100]`, currentTime 95,
rate 1024 (an available speed), one tick overflows `max` and the code
wraps `currentTime` to 0, not to `min = 5`; the result even leaves
`[min, max]`. -/
theorem tick_wrap_min_cex :
    (tick ⟨95, 5, 100, 1024⟩).currentTime = 0 ∧
      (⟨95, 5, 100, 1024⟩ : ClockState).timeRangeMin = 5 ∧
      (tick ⟨95, 5, 100, 1024⟩).currentTime <
        (⟨95, 5, 100, 1024⟩ : ClockState).timeRangeMin := by
  decide

/-- Claim C5 as amended: `tick` advances `currentTime` by
`ANIMATION_SPEED * rate` and wraps to 0 (not to `min`) when the result
exceeds `max`; consequently `currentTime` stays within `[0, max]` (the
spec's `[min, max]` only when `min = 0`). -/
theorem tick_wrap_zero (s : ClockState)
    (hmax : 0 < s.timeRangeMax) (h0 : 0 ≤ s.currentTime)
    (hsp : 0 ≤ s.speed) :
    (tick s).currentTime =
      (if s.timeRangeMax < s.currentTime + animationSpeedBase * s.speed
        then 0 else s.currentTime + animationSpeedBase * s.speed) ∧
      0 ≤ (tick s).currentTime ∧
      (tick s).currentTime ≤ s.timeRangeMax := by
  have hne : s.timeRangeMax ≠ 0 := ne_of_gt hmax
  have hadv : 0 ≤ animationSpeedBase * s.speed :=
    mul_nonneg (by norm_num [animationSpeedBase]) hsp
  simp only [tick, if_neg hne]
  refine ⟨?_, ?_, ?_⟩
  · trivial
  · split
    · exact le_refl 0
    · linarith
  · split
    · exact hmax.le
    · rename_i h
      exact le_of_not_lt h

/-- Witness for C5 (amended) at extent `[0, 100]`, time 95, rate 1. -/
theorem tick_wrap_zero_witness :
    (tick ⟨95, 0, 100, 1⟩).currentTime =
      (if (⟨95, 0, 100, 1⟩ : ClockState).timeRangeMax <
          (⟨95, 0, 100, 1⟩ : ClockState).currentTime +
            animationSpeedBase * (⟨95, 0, 100, 1⟩ : ClockState).speed
        then 0
        else (⟨95, 0, 100, 1⟩ : ClockState).currentTime +
          animationSpeedBase * (⟨95, 0, 100, 1⟩ : ClockState).speed) ∧
      0 ≤ (tick ⟨95, 0, 100, 1⟩).currentTime ∧
      (tick ⟨95, 0, 100, 1⟩).currentTime ≤
        (⟨95, 0, 100, 1⟩ : ClockState).timeRangeMax :=
  tick_wrap_zero ⟨95, 0, 100, 1⟩ (by decide) (by decide) (by decide)

/-- Claim C6 counterexample: a seek to fraction 3/2 (target
`p = 150` with extent `[0, 100]`) stores 150 unclamped, while
`clamp(150, 0, 100) = 100`: out-of-range seeks are NOT clamped. -/
theorem seek_clamp_cex :
    (handleProgressClick 15 0 10 ⟨0, 0, 100, 1⟩).currentTime = 150 ∧
      specClamp 150 (⟨0, 0, 100, 1⟩ : ClockState).timeRangeMin
        (⟨0, 0, 100, 1⟩ : ClockState).timeRangeMax = 100 ∧
      ¬ (handleProgressClick 15 0 10 ⟨0, 0, 100, 1⟩).currentTime =
          specClamp 150 (⟨0, 0, 100, 1⟩ : ClockState).timeRangeMin
            (⟨0, 0, 100, 1⟩ : ClockState).timeRangeMax := by
  decide

/-- Claim C6 as amended: `seek` stores `pct * max` with no clamping at
all; for every click fraction in `[0, 1]` (every click landing inside
the progress bar) the stored value coincides with
`clamp(p, 0, max)`, and the metrics read immediately after observes it
exactly. -/
theorem seek_clamp_in_range (clientX rectLeft rectWidth : ℚ)
    (s : ClockState) (hmax : 0 ≤ s.timeRangeMax)
    (h0 : 0 ≤ (clientX - rectLeft) / rectWidth)
    (h1 : (clientX - rectLeft) / rectWidth ≤ 1) :
    (handleProgressClick clientX rectLeft rectWidth s).currentTime =
      specClamp ((clientX - rectLeft) / rectWidth * s.timeRangeMax)
        0 s.timeRangeMax := by
  have hp0 : 0 ≤ (clientX - rectLeft) / rectWidth * s.timeRangeMax :=
    mul_nonneg h0 hmax
  have hp1 : (clientX - rectLeft) / rectWidth * s.timeRangeMax ≤
      s.timeRangeMax := by
    calc (clientX - rectLeft) / rectWidth * s.timeRangeMax
        ≤ 1 * s.timeRangeMax := mul_le_mul_of_nonneg_right h1 hmax
      _ = s.timeRangeMax := one_mul _
  simp only [handleProgressClick, specClamp]
  rw [max_eq_left hp0, min_eq_left hp1]

/-- Witness for C6 (amended): a click at the middle of the bar seeks to
50 = clamp(50, 0, 100). -/
theorem seek_clamp_in_range_witness :
    (handleProgressClick 5 0 10 ⟨0, 0, 100, 1⟩).currentTime =
      specClamp ((5 - 0) / 10 * (⟨0, 0, 100, 1⟩ : ClockState).timeRangeMax)
        0 (⟨0, 0, 100, 1⟩ : ClockState).timeRangeMax :=
  seek_clamp_in_range 5 0 10 ⟨0, 0, 100, 1⟩ (by decide) (by decide)
    (by decide)

/-- Claim C10 counterexample: two `tick` invocations before the next
read advance `currentTime` twice (0.032), not once (0.016): the advances
accumulate, so `tick` is not idempotent per frame. -/
theorem tick_idempotent_cex :
    (tick (tick ⟨0, 0, 100, 1⟩)).currentTime = 4 / 125 ∧
      (tick ⟨0, 0, 100, 1⟩).currentTime = 2 / 125 ∧
      ¬ (tick (tick ⟨0, 0, 100, 1⟩)).currentTime =
          (tick ⟨0, 0, 100, 1⟩).currentTime := by
  decide

lemma tick_const_fields (s : ClockState) :
    (tick s).timeRangeMax = s.timeRangeMax ∧
      (tick s).timeRangeMin = s.timeRangeMin ∧ (tick s).speed = s.speed := by
  simp only [tick]
  split
  · exact ⟨rfl, rfl, rfl⟩
  · exact ⟨rfl, rfl, rfl⟩

lemma tick_iterate_fields (n : ℕ) (s : ClockState) :
    (tick^[n] s).timeRangeMax = s.timeRangeMax ∧
      (tick^[n] s).speed = s.speed := by
  induction n with
  | zero => exact ⟨rfl, rfl⟩
  | succ n ih =>
    rw [Function.iterate_succ_apply']
    obtain ⟨h1, h2⟩ := ih
    exact ⟨((tick_const_fields _).1).trans h1,
      ((tick_const_fields _).2.2).trans h2⟩

/-- Claim C10 as amended: `tick` calls accumulate: `n` invocations
before the next read advance `currentTime` by
`n * ANIMATION_SPEED * rate` (absent wraparound), not by the last
call's increment alone. -/
theorem tick_accumulates (n : ℕ) (s : ClockState)
    (hmax : 0 < s.timeRangeMax) (hsp : 0 ≤ s.speed)
    (hfit : s.currentTime + (n : ℚ) * (animationSpeedBase * s.speed) ≤
      s.timeRangeMax) :
    (tick^[n] s).currentTime =
      s.currentTime + (n : ℚ) * (animationSpeedBase * s.speed) := by
  induction n with
  | zero => simp
  | succ n ih =>
    have hadv : 0 ≤ animationSpeedBase * s.speed :=
      mul_nonneg (by norm_num [animationSpeedBase]) hsp
    have hfit_n : s.currentTime +
        (n : ℚ) * (animationSpeedBase * s.speed) ≤ s.timeRangeMax := by
      push_cast at hfit
      nlinarith
    have hIH := ih hfit_n
    obtain ⟨hM, hS⟩ := tick_iterate_fields n s
    rw [Function.iterate_succ_apply']
    have hne : (tick^[n] s).timeRangeMax ≠ 0 := by
      rw [hM]
      exact ne_of_gt hmax
    simp only [tick, if_neg hne]
    rw [hM, hS, hIH]
    have hnowrap : ¬ s.timeRangeMax <
        s.currentTime + (n : ℚ) * (animationSpeedBase * s.speed) +
          animationSpeedBase * s.speed := by
      push_cast at hfit
      intro hlt
      nlinarith
    rw [if_neg hnowrap]
    push_cast
    ring

/-- Witness for C10 (amended): two ticks from time 0 at rate 1 land at
2 * 0.016. -/
theorem tick_accumulates_witness :
    (tick^[2] ⟨0, 0, 100, 1⟩).currentTime =
      (⟨0, 0, 100, 1⟩ : ClockState).currentTime +
        ((2 : ℕ) : ℚ) * (animationSpeedBase *
          (⟨0, 0, 100, 1⟩ : ClockState).speed) :=
  tick_accumulates 2 ⟨0, 0, 100, 1⟩ (by decide) (by decide) (by decide)

/-! ### Aggregate precomputation

Embedding of the metrics precompute effect of the map component
(MapContainer.tsx, lines 106-141):

    const maxSec = Math.ceil(timeRangeRef.current.max);
    const active = new Int32Array(maxSec + 1);
    const cum = new Int32Array(maxSec + 1);
    for (const t of trajectories) {
        if (!t.timestamps || t.timestamps.length === 0) continue;
        const startStr = t.timestamps[0];
        const endStr = t.timestamps[t.timestamps.length - 1];
        const startSec = Math.max(0, Math.floor(startStr));
        const endSec = Math.min(maxSec, Math.ceil(endStr));
        if (startSec <= maxSec) cum[startSec] += 1;
        for (let s = startSec; s <= endSec; s++) active[s] += 1;
    }
    let currentCum = 0;
    for (let i = 0; i <= maxSec; i++) { currentCum += cum[i]; cum[i] = currentCum; }

A trajectory is modelled by its timestamp list; its activity interval is
[first timestamp, last timestamp].  The two arrays are modelled as
functions from index to count: the inner loops write exactly the indices
in [startSec, endSec] (respectively startSec), all of which lie within
the allocated range [0, maxSec], so the function model records exactly
the array contents at every index that is ever read. -/

/-- `maxSec = Math.ceil(timeRangeRef.current.max)` (line 109).  The
effect only runs under the guard `timeRangeRef.current.max > 0`
(line 107), so the ceiling is a positive integer. -/
def buildMaxSec (maxRaw : ℚ) : ℕ := (⌈maxRaw⌉).toNat

/-- `Math.max(0, Math.floor(startStr))` (line 118). -/
def startSecOf (x : ℚ) : ℤ := max 0 ⌊x⌋

/-- `Math.min(maxSec, Math.ceil(endStr))` (line 119), where `endStr` is
the last timestamp of a nonempty trajectory. -/
def endSecOf (maxSec : ℕ) (x : ℚ) (xs : List ℚ) : ℤ :=
  min (maxSec : ℤ) ⌈(x :: xs).getLast (List.cons_ne_nil x xs)⌉

/-- One iteration of the trajectory loop (lines 113-126), acting on the
pair `(active, cum)`: an empty trajectory is skipped (`continue`); the
`cum` bump is guarded by `startSec <= maxSec`; the `active` bumps cover
`startSec <= s <= endSec`. -/
def trajStep (maxSec : ℕ) (acc : (ℕ → ℕ) × (ℕ → ℕ)) (ts : List ℚ) :
    (ℕ → ℕ) × (ℕ → ℕ) :=
  match ts with
  | [] => acc
  | x :: xs =>
    (fun u => if startSecOf x ≤ (u : ℤ) ∧ (u : ℤ) ≤ endSecOf maxSec x xs
        then acc.1 u + 1 else acc.1 u,
      fun u => if (u : ℤ) = startSecOf x ∧ startSecOf x ≤ (maxSec : ℤ)
        then acc.2 u + 1 else acc.2 u)

/-- The `(active, cum)` pair after the whole trajectory loop, starting
from the zero-initialized arrays (lines 110-126). -/
def rawCounts (maxSec : ℕ) (trajs : List (List ℚ)) :
    (ℕ → ℕ) × (ℕ → ℕ) :=
  trajs.foldl (trajStep maxSec) (fun _ => 0, fun _ => 0)

/-- `metricsRef.current.active[u]`: the `active` array is stored without
further processing (line 137). -/
def activeCount (maxSec : ℕ) (trajs : List (List ℚ)) (u : ℕ) : ℕ :=
  (rawCounts maxSec trajs).1 u

/-- `metricsRef.current.cumulative[u]`: the prefix-sum loop
(lines 128-132) replaces `cum[u]` by `cum[0] + ... + cum[u]`. -/
def cumulativeCount (maxSec : ℕ) (trajs : List (List ℚ)) (u : ℕ) : ℕ :=
  ∑ i ∈ Finset.range (u + 1), (rawCounts maxSec trajs).2 i

/-- Per-trajectory test matching one `active` bump of the loop. -/
def activeRawAt (maxSec u : ℕ) (ts : List ℚ) : Bool :=
  match ts with
  | [] => false
  | x :: xs =>
    decide (startSecOf x ≤ (u : ℤ) ∧ (u : ℤ) ≤ endSecOf maxSec x xs)

/-- Per-trajectory test matching the `cum` bump at index `i`. -/
def startRawAt (maxSec i : ℕ) (ts : List ℚ) : Bool :=
  match ts with
  | [] => false
  | x :: _ => decide ((i : ℤ) = startSecOf x ∧ startSecOf x ≤ (maxSec : ℤ))

/-- Per-trajectory test: the clamped start index is at most `u`. -/
def startLeRawAt (maxSec u : ℕ) (ts : List ℚ) : Bool :=
  match ts with
  | [] => false
  | x :: _ =>
    decide (startSecOf x ≤ (u : ℤ) ∧ startSecOf x ≤ (maxSec : ℤ))

/-- Activity of an entity at unit `u` following the spec's words:
`start ≤ u ≤ end` on the raw (possibly non-integer) interval bounds. -/
def specActiveAt (u : ℕ) (ts : List ℚ) : Bool :=
  match ts with
  | [] => false
  | x :: xs =>
    decide (x ≤ (u : ℚ) ∧
      (u : ℚ) ≤ (x :: xs).getLast (List.cons_ne_nil x xs))

/-- `activeCount[u]` following the spec's words: the number of entities
whose `[start, end]` interval contains `u`. -/
def specActiveCount (trajs : List (List ℚ)) (u : ℕ) : ℕ :=
  trajs.countP (specActiveAt u)

/-- Start test following the spec's words: `start ≤ u`. -/
def specStartedAt (u : ℕ) (ts : List ℚ) : Bool :=
  match ts with
  | [] => false
  | x :: _ => decide (x ≤ (u : ℚ))

/-- `cumulativeCount[u]` following the spec's words: the number of
entities with `start ≤ u`. -/
def specCumulativeCount (trajs : List (List ℚ)) (u : ℕ) : ℕ :=
  trajs.countP (specStartedAt u)

/-- Activity as the code computes it for in-range units:
`⌊start⌋ ≤ u ≤ ⌈end⌉`. -/
def floorCeilActiveAt (u : ℕ) (ts : List ℚ) : Bool :=
  match ts with
  | [] => false
  | x :: xs =>
    decide (⌊x⌋ ≤ (u : ℤ) ∧
      (u : ℤ) ≤ ⌈(x :: xs).getLast (List.cons_ne_nil x xs)⌉)

/-- Start test as the code computes it: `⌊start⌋ ≤ u`. -/
def floorStartedAt (u : ℕ) (ts : List ℚ) : Bool :=
  match ts with
  | [] => false
  | x :: _ => decide (⌊x⌋ ≤ (u : ℤ))

lemma foldl_trajStep_active (maxSec : ℕ) (trajs : List (List ℚ)) :
    ∀ (acc : (ℕ → ℕ) × (ℕ → ℕ)) (u : ℕ),
      (trajs.foldl (trajStep maxSec) acc).1 u =
        acc.1 u + trajs.countP (activeRawAt maxSec u) := by
  induction trajs with
  | nil =>
    intro acc u
    simp
  | cons ts trajs ih =>
    intro acc u
    simp only [List.foldl_cons]
    rw [ih, List.countP_cons]
    cases ts with
    | nil =>
      simp [trajStep, activeRawAt]
    | cons x xs =>
      simp only [trajStep, activeRawAt, decide_eq_true_eq]
      by_cases hcond : startSecOf x ≤ (u : ℤ) ∧
          (u : ℤ) ≤ endSecOf maxSec x xs
      · simp only [if_pos hcond]
        omega
      · simp only [if_neg hcond]
        omega

lemma foldl_trajStep_cum (maxSec : ℕ) (trajs : List (List ℚ)) :
    ∀ (acc : (ℕ → ℕ) × (ℕ → ℕ)) (i : ℕ),
      (trajs.foldl (trajStep maxSec) acc).2 i =
        acc.2 i + trajs.countP (startRawAt maxSec i) := by
  induction trajs with
  | nil =>
    intro acc i
    simp
  | cons ts trajs ih =>
    intro acc i
    simp only [List.foldl_cons]
    rw [ih, List.countP_cons]
    cases ts with
    | nil =>
      simp [trajStep, startRawAt]
    | cons x xs =>
      simp only [trajStep, startRawAt, decide_eq_true_eq]
      by_cases hcond : (i : ℤ) = startSecOf x ∧
          startSecOf x ≤ (maxSec : ℤ)
      · simp only [if_pos hcond]
        omega
      · simp only [if_neg hcond]
        omega

lemma activeCount_eq_countP (maxSec : ℕ) (trajs : List (List ℚ))
    (u : ℕ) :
    activeCount maxSec trajs u = trajs.countP (activeRawAt maxSec u) := by
  unfold activeCount rawCounts
  rw [foldl_trajStep_active]
  simp

lemma cumRaw_eq_countP (maxSec : ℕ) (trajs : List (List ℚ)) (i : ℕ) :
    (rawCounts maxSec trajs).2 i = trajs.countP (startRawAt maxSec i) := by
  unfold rawCounts
  rw [foldl_trajStep_cum]
  simp

lemma countP_or_disjoint {α : Type} (l : List α) (p q r : α → Bool)
    (h : ∀ a, r a = true ↔ (p a = true ∨ q a = true))
    (hd : ∀ a, ¬(p a = true ∧ q a = true)) :
    l.countP p + l.countP q = l.countP r := by
  induction l with
  | nil => simp
  | cons a l ih =>
    rw [List.countP_cons, List.countP_cons, List.countP_cons]
    have h1 := h a
    have h2 := hd a
    cases hp : p a <;> cases hq : q a <;> cases hr : r a <;>
      simp_all <;> omega

/-- The prefix-summed `cum` array counts the trajectories whose clamped
start index is at most `u`. -/
lemma cumulativeCount_eq_countP (maxSec : ℕ) (trajs : List (List ℚ)) :
    ∀ u : ℕ, cumulativeCount maxSec trajs u =
      trajs.countP (startLeRawAt maxSec u) := by
  intro u
  induction u with
  | zero =>
    unfold cumulativeCount
    rw [Finset.range_one, Finset.sum_singleton, cumRaw_eq_countP]
    apply List.countP_congr
    intro ts hts
    cases ts with
    | nil => simp [startRawAt, startLeRawAt]
    | cons x xs =>
      have hs : 0 ≤ startSecOf x := le_max_left 0 _
      simp only [startRawAt, startLeRawAt, decide_eq_true_eq]
      omega
  | succ u ih =>
    unfold cumulativeCount at ih ⊢
    rw [Finset.sum_range_succ, ih, cumRaw_eq_countP]
    apply countP_or_disjoint
    · intro ts
      cases ts with
      | nil => simp [startRawAt, startLeRawAt]
      | cons x xs =>
        simp only [startRawAt, startLeRawAt, decide_eq_true_eq]
        omega
    · intro ts
      cases ts with
      | nil => simp [startRawAt, startLeRawAt]
      | cons x xs =>
        simp only [startRawAt, startLeRawAt, decide_eq_true_eq]
        omega

/-- Claim C7 counterexample: a single entity with the non-integer
interval [1/2, 1/2].  The code's table has `activeCount[0] = 1` (the
interval is expanded to the integer span [0, 1]); the spec's count of
entities with `start ≤ 0 ≤ end` is 0.  The claim equates them for all
`u` in `[0, ceil(max(end))]`, and `0` is in that range. -/
theorem active_count_cex :
    activeCount (buildMaxSec (1 / 2)) [[(1 / 2 : ℚ)]] 0 = 1 ∧
      specActiveCount [[(1 / 2 : ℚ)]] 0 = 0 ∧
      ¬ activeCount (buildMaxSec (1 / 2)) [[(1 / 2 : ℚ)]] 0 =
          specActiveCount [[(1 / 2 : ℚ)]] 0 := by
  decide

/-- Claim C7 as amended: for every integer unit `u` in `[0, maxSec]`,
`activeCount[u]` equals the number of entities whose integer-expanded
span `[⌊start⌋, ⌈end⌉]` contains `u`; for integer-valued `start`/`end`
this coincides with `start ≤ u ≤ end`, but not for fractional bounds. -/
theorem active_count_floor_ceil (trajs : List (List ℚ)) (maxRaw : ℚ)
    (u : ℕ) (hu : u ≤ buildMaxSec maxRaw) :
    activeCount (buildMaxSec maxRaw) trajs u =
      trajs.countP (floorCeilActiveAt u) := by
  rw [activeCount_eq_countP]
  apply List.countP_congr
  intro ts hts
  cases ts with
  | nil => simp [activeRawAt, floorCeilActiveAt]
  | cons x xs =>
    have hu2 : (u : ℤ) ≤ (buildMaxSec maxRaw : ℤ) := by exact_mod_cast hu
    simp only [activeRawAt, floorCeilActiveAt, startSecOf, endSecOf,
      decide_eq_true_eq, le_min_iff, max_le_iff]
    omega

/-- Witness for C7 (amended): the spec's own scenario, two entities with
intervals [0, 10] and [5, 15]; at `u = 7` the table records 2. -/
theorem active_count_floor_ceil_witness :
    activeCount (buildMaxSec 15) [[(0 : ℚ), 10], [5, 15]] 7 =
      List.countP (floorCeilActiveAt 7) [[(0 : ℚ), 10], [5, 15]] :=
  active_count_floor_ceil [[(0 : ℚ), 10], [5, 15]] 15 7 (by decide)

/-- Claim C8 counterexample: a single entity starting at the non-integer
time 1/2.  The code has `cumulativeCount[0] = 1` (the start is floored
to 0), but no entity satisfies `start ≤ 0`. -/
theorem cumulative_count_cex :
    cumulativeCount (buildMaxSec (1 / 2)) [[(1 / 2 : ℚ)]] 0 = 1 ∧
      specCumulativeCount [[(1 / 2 : ℚ)]] 0 = 0 ∧
      ¬ cumulativeCount (buildMaxSec (1 / 2)) [[(1 / 2 : ℚ)]] 0 =
          specCumulativeCount [[(1 / 2 : ℚ)]] 0 := by
  constructor
  · unfold cumulativeCount
    rw [Finset.range_one, Finset.sum_singleton, cumRaw_eq_countP]
    decide
  constructor
  · decide
  · unfold cumulativeCount
    rw [Finset.range_one, Finset.sum_singleton, cumRaw_eq_countP]
    decide

/-- Claim C8 as amended: with the table sized by `maxRaw`
(`timeRange.max`, an upper bound of all timestamps), for `u ≤ maxSec`
`cumulativeCount[u]` counts the entities with `⌊start⌋ ≤ u`
(equivalently `start < u + 1`, which is `start ≤ u` only for integer
starts); it is monotonically non-decreasing; and at `u = maxSec` it
equals the total count of (nonempty) entities. -/
theorem cumulative_count_correct (trajs : List (List ℚ)) (maxRaw : ℚ)
    (hpos : 0 < maxRaw)
    (hbound : ∀ ts ∈ trajs, ∀ x ∈ ts, x ≤ maxRaw)
    (u v : ℕ) (hu : u ≤ buildMaxSec maxRaw) (huv : u ≤ v) :
    cumulativeCount (buildMaxSec maxRaw) trajs u =
        trajs.countP (floorStartedAt u) ∧
      cumulativeCount (buildMaxSec maxRaw) trajs u ≤
        cumulativeCount (buildMaxSec maxRaw) trajs v ∧
      cumulativeCount (buildMaxSec maxRaw) trajs (buildMaxSec maxRaw) =
        trajs.countP (fun ts => !ts.isEmpty) := by
  have hcast : ((buildMaxSec maxRaw : ℕ) : ℤ) = ⌈maxRaw⌉ :=
    Int.toNat_of_nonneg (Int.ceil_nonneg hpos.le)
  refine ⟨?_, ?_, ?_⟩
  · rw [cumulativeCount_eq_countP]
    apply List.countP_congr
    intro ts hts
    cases ts with
    | nil => simp [startLeRawAt, floorStartedAt]
    | cons x xs =>
      have hu2 : (u : ℤ) ≤ (buildMaxSec maxRaw : ℤ) := by exact_mod_cast hu
      simp only [startLeRawAt, floorStartedAt, startSecOf,
        decide_eq_true_eq, max_le_iff]
      omega
  · unfold cumulativeCount
    apply Finset.sum_le_sum_of_subset
    apply Finset.range_subset.mpr
    omega
  · rw [cumulativeCount_eq_countP]
    apply List.countP_congr
    intro ts hts
    cases ts with
    | nil => simp [startLeRawAt]
    | cons x xs =>
      have hx : x ≤ maxRaw := hbound _ hts x (List.mem_cons_self x xs)
      have hfl : ⌊x⌋ ≤ ⌈maxRaw⌉ :=
        le_trans (Int.floor_le_floor hx) (Int.floor_le_ceil maxRaw)
      simp only [startLeRawAt, startSecOf, decide_eq_true_eq, max_le_iff,
        List.isEmpty_cons, Bool.not_false]
      constructor
      · intro h
        trivial
      · intro h
        omega

/-- Witness for C8 (amended): the spec's scenario, entities [0, 10] and
[5, 15]; `cumulativeCount[5] = 2` and the table is monotone up to 20. -/
theorem cumulative_count_correct_witness :
    cumulativeCount (buildMaxSec 15) [[(0 : ℚ), 10], [5, 15]] 5 =
        List.countP (floorStartedAt 5) [[(0 : ℚ), 10], [5, 15]] ∧
      cumulativeCount (buildMaxSec 15) [[(0 : ℚ), 10], [5, 15]] 5 ≤
        cumulativeCount (buildMaxSec 15) [[(0 : ℚ), 10], [5, 15]] 20 ∧
      cumulativeCount (buildMaxSec 15) [[(0 : ℚ), 10], [5, 15]]
          (buildMaxSec 15) =
        List.countP (fun ts => !ts.isEmpty) [[(0 : ℚ), 10], [5, 15]] :=
  cumulative_count_correct [[(0 : ℚ), 10], [5, 15]] 15 (by decide)
    (by decide) 5 20 (by decide) (by decide)


end RatCompute

end AAE
